import Mathlib

/-!
Verification of the repositioning-helper hole-detection service.

This file embeds, over exact rational arithmetic, the parts of the code base
that the verified claims are about:

* `src/config.py` — the tunable thresholds;
* `src/geometry/extraction.py` — `calculate_hole_score` and
  `combine_and_group` (candidate fusion, DBSCAN clustering with
  `min_samples=1`, scoring, ranking and id assignment);
* `src/geometry/utils.py` — `sample_edge_points`;
* `src/processing/export.py` — `generate_export_json`;
* `src/processing/pipeline.py` — `process_step_file_async`;
* `src/handlers.py` — the `/api/toggle` handler.

Modelling decisions, each noted again at the definition it concerns:

* Python floats are modelled as exact rationals (`ℚ`); `round(x, n)` is
  modelled as round-half-to-even on the exact rational value, which is the
  rounding mode Python uses on the represented value.
* The single irrational primitive reached by the embedded code,
  `np.linalg.norm` inside `combine_and_group`'s axis fusion, is abstracted
  as an explicit square-root parameter `sqrtFn : ℚ → ℚ` applied to the
  squared norm; theorems quantify over it, and concrete instances pin it
  down at the (rational) points where it is actually evaluated.
* CAD-kernel calls (model loading, curve evaluation, polygonal
  approximation, triangulation) are oracles: their outcomes, including the
  possibility of raising, are inputs to the embedded functions.
-/

/-! ## Configuration constants (src/config.py) -/

def RADIUS_MIN : ℚ := 3/2

def RADIUS_MAX : ℚ := 20

def CIRCLE_GROUPING_DISTANCE : ℚ := 4

def MIN_VERTICAL_ALIGNMENT : ℚ := 3/20

def MAX_CANDIDATES : ℕ := 800

def MIN_SCORE_THRESHOLD : ℚ := 20

def Z_TOLERANCE : ℚ := 12

def ARC_MIN_SPAN_RAD : ℚ := 1

/-! ## Data model -/

/-- Tag of the extractor that produced a candidate circle (the `source`
string of the Python candidate dicts). -/
inductive SourceKind where
  | analytic_edge
  | cylindrical_face
  | fitted_edge
deriving DecidableEq

/-- A 3D point / vector with exact rational coordinates. -/
structure Vec3 where
  x : ℚ
  y : ℚ
  z : ℚ
deriving DecidableEq

instance : Inhabited Vec3 := ⟨⟨0, 0, 0⟩⟩

/-- One observed circular feature, as built by the extractors in
`src/geometry/extraction.py`. -/
structure CandidateCircle where
  source : SourceKind
  center : Vec3
  radius : ℚ
  axis : Vec3
deriving DecidableEq

instance : Inhabited CandidateCircle :=
  ⟨⟨SourceKind.analytic_edge, ⟨0, 0, 0⟩, 0, ⟨0, 0, 1⟩⟩⟩

/-- A fused hole estimate: the dict appended by `combine_and_group`.
Python's `sources` value is a set of source strings, so it is modelled as a
`Finset`. -/
structure Hole where
  id : ℕ
  center : Vec3
  radius : ℚ
  num_circles : ℕ
  z_depth : ℚ
  vertical_alignment : ℚ
  score : ℚ
  sources : Finset SourceKind
deriving DecidableEq

instance : Inhabited Hole := ⟨⟨0, ⟨0, 0, 0⟩, 0, 0, 0, 0, 0, ∅⟩⟩

/-! ## List helpers mirroring Python/numpy primitives -/

/-- Stable descending insertion by key: the inserted element goes before the
first element whose key is not larger.  `insertDescBy` / `sortDescBy`
together are extensionally Python's stable `list.sort(key=key,
reverse=True)`. -/
def insertDescBy (key : α → ℚ) (x : α) : List α → List α
  | [] => [x]
  | y :: ys => if key x < key y then y :: insertDescBy key x ys else x :: y :: ys

/-- Stable descending sort by key (Python `list.sort(key=key, reverse=True)`). -/
def sortDescBy (key : α → ℚ) : List α → List α
  | [] => []
  | x :: xs => insertDescBy key x (sortDescBy key xs)

/-- Ascending insertion on rationals (numpy's sort, used by `np.median`). -/
def insertAscQ (x : ℚ) : List ℚ → List ℚ
  | [] => [x]
  | y :: ys => if x ≤ y then x :: y :: ys else y :: insertAscQ x ys

/-- Ascending sort on rationals. -/
def sortAscQ : List ℚ → List ℚ
  | [] => []
  | x :: xs => insertAscQ x (sortAscQ xs)

/-- `np.median` of a list of rationals: middle element of the sorted list,
or the mean of the two middle elements for even length.  (numpy's median of
an empty array is NaN; the embedding returns 0, and no embedded call site
reaches that case.) -/
def medianQ (l : List ℚ) : ℚ :=
  let s := sortAscQ l
  let n := s.length
  if n = 0 then 0
  else if n % 2 = 1 then s.getD (n / 2) 0
  else (s.getD (n / 2 - 1) 0 + s.getD (n / 2) 0) / 2

/-- Python `max` over a nonempty list (0 for the empty list, unreached). -/
def maxQ : List ℚ → ℚ
  | [] => 0
  | x :: xs => xs.foldl max x

/-- Python `min` over a nonempty list (0 for the empty list, unreached). -/
def minQ : List ℚ → ℚ
  | [] => 0
  | x :: xs => xs.foldl min x

/-- Bounded iteration (used to reach the fixpoint of the cluster-expansion
step; the iteration count is fixed to the number of points). -/
def iterateN (f : α → α) : ℕ → α → α
  | 0, a => a
  | n + 1, a => iterateN f n (f a)

/-! ## Scorer (src/geometry/extraction.py, `calculate_hole_score`) -/

/-- The set of source tags present in a group
(Python `{g['source'] for g in group}`). -/
def sourcesOf (group : List CandidateCircle) : Finset SourceKind :=
  (group.map (fun g => g.source)).toFinset

/-- `calculate_hole_score(group, representative, avg_radius, alignment)` from
`src/geometry/extraction.py`.  The `representative` parameter is accepted and
ignored, exactly as in the source. -/
def calculate_hole_score (group : List CandidateCircle) (representative : CandidateCircle)
    (avg_radius alignment : ℚ) : ℚ :=
  let score1 : ℚ := max 0 (25 - |avg_radius - 11/2| * (3/2))
  let score2 : ℚ :=
    if MIN_VERTICAL_ALIGNMENT ≤ alignment then
      score1 + (alignment - MIN_VERTICAL_ALIGNMENT) / (1 - MIN_VERTICAL_ALIGNMENT) * 15
    else score1
  let n := group.length
  let score3 : ℚ := score2 + (if 4 ≤ n then 40 else if n = 3 then 32 else if n = 2 then 24 else 15)
  let srcs := sourcesOf group
  let score4 : ℚ := score3 + (if SourceKind.cylindrical_face ∈ srcs then 15 else 0)
  let score5 : ℚ := score4 + (if SourceKind.analytic_edge ∈ srcs then 10 else 0)
  let score6 : ℚ := score5 + (if SourceKind.fitted_edge ∈ srcs then (if 2 ≤ n then 5 else 3) else 0)
  max 0 (min 100 score6)

/-! ## Aggregator / clusterer (src/geometry/extraction.py, `combine_and_group`) -/

/-- The anisotropic z rescaling factor `z_scale = Z_TOLERANCE / CIRCLE_GROUPING_DISTANCE`. -/
def zScale : ℚ := Z_TOLERANCE / CIRCLE_GROUPING_DISTANCE

/-- The 3-feature vector DBSCAN clusters on: `(x, y, z / z_scale)` of a
candidate's center. -/
def featureOf (c : CandidateCircle) : Vec3 :=
  ⟨c.center.x, c.center.y, c.center.z / zScale⟩

/-- Squared Euclidean distance between feature vectors. -/
def sqDist (p q : Vec3) : ℚ :=
  (p.x - q.x) ^ 2 + (p.y - q.y) ^ 2 + (p.z - q.z) ^ 2

/-- DBSCAN's eps-neighborhood test (`dist <= eps`, stated on squares so it is
decidable over ℚ). -/
def closeB (p q : Vec3) : Bool :=
  decide (sqDist p q ≤ CIRCLE_GROUPING_DISTANCE ^ 2)

/-- One expansion step of a cluster: all point indices that are already in
the cluster or within eps of a member. -/
def expandStep (pts : List Vec3) (s : List ℕ) : List ℕ :=
  (List.range pts.length).filter
    (fun j => s.contains j || s.any (fun k => closeB (pts.getD j default) (pts.getD k default)))

/-- The eps-connected component of point `i`: with `min_samples=1` every
point is a core point, so DBSCAN's clusters are exactly the connected
components of the eps-neighborhood graph.  `pts.length` expansion steps
reach the fixpoint. -/
def closureFrom (pts : List Vec3) (i : ℕ) : List ℕ :=
  iterateN (expandStep pts) pts.length [i]

/-- The clusters, in the order scikit-learn's DBSCAN labels them: scanning
points in index order, each not-yet-clustered point opens the next cluster
(its connected component); `sorted(set(labels))` then yields the clusters in
this discovery order, each with members in index order. -/
def componentsList (pts : List Vec3) : List (List ℕ) :=
  (List.range pts.length).foldl
    (fun acc i => if acc.any (fun g => g.contains i) then acc else acc ++ [closureFrom pts i])
    []

/-- The defensive radius pre-filter (step 1 of `combine_and_group`). -/
def filteredCands (l : List CandidateCircle) : List CandidateCircle :=
  l.filter (fun c => decide (RADIUS_MIN ≤ c.radius) && decide (c.radius ≤ RADIUS_MAX))

/-- The clusters of the radius-filtered candidates, as candidate groups
(`group = [filtered[i] for i in group_idx]`). -/
def holeGroups (l : List CandidateCircle) : List (List CandidateCircle) :=
  let f := filteredCands l
  (componentsList (f.map featureOf)).map (fun idxs => idxs.map (fun i => f.getD i default))

/-- Is a candidate from one of the two trusted sources
(`g['source'] in ['analytic_edge', 'cylindrical_face']`)? -/
def isTrusted (g : CandidateCircle) : Bool :=
  decide (g.source = SourceKind.analytic_edge) || decide (g.source = SourceKind.cylindrical_face)

/-- Stable descending sort of candidates by center z
(`sort(key=lambda g: g['center'][2], reverse=True)`). -/
def sortZDesc (l : List CandidateCircle) : List CandidateCircle :=
  sortDescBy (fun g => g.center.z) l

/-- Pick the `best` representative of a group and the group in the order the
rest of the loop body sees it: when no trusted member exists the Python code
sorts `group` itself in place, so the mutated order is returned. -/
def chooseBest (group : List CandidateCircle) : CandidateCircle × List CandidateCircle :=
  let analytic := group.filter isTrusted
  if analytic.isEmpty then
    let g := sortZDesc group
    (g.headD default, g)
  else ((sortZDesc analytic).headD default, group)

/-- The per-source axis fusion weight (3.0 cylindrical, 2.0 analytic, 1.0 fitted). -/
def sourceWeight (g : CandidateCircle) : ℚ :=
  if g.source = SourceKind.cylindrical_face then 3
  else if g.source = SourceKind.analytic_edge then 2
  else 1

/-- `np.average(axes, axis=0, weights=weights)`: the weighted mean of the
member axes. -/
def weightedAxis (group : List CandidateCircle) : Vec3 :=
  let w := (group.map sourceWeight).sum
  ⟨(group.map (fun g => sourceWeight g * g.axis.x)).sum / w,
   (group.map (fun g => sourceWeight g * g.axis.y)).sum / w,
   (group.map (fun g => sourceWeight g * g.axis.z)).sum / w⟩

/-- `avg_axis / (np.linalg.norm(avg_axis) + 1e-10)`.  `np.linalg.norm` is the
square root of the squared norm; the square root is abstracted as the
explicit parameter `sqrtFn` since it is the one irrational primitive the
embedded code reaches. -/
def normalizeAxis (sqrtFn : ℚ → ℚ) (v : Vec3) : Vec3 :=
  let d := sqrtFn (v.x ^ 2 + v.y ^ 2 + v.z ^ 2) + 1 / 10 ^ 10
  ⟨v.x / d, v.y / d, v.z / d⟩

/-- The body of `combine_and_group`'s per-cluster loop: builds the hole dict
for one group, or `none` for the `continue` taken when the fused axis is not
vertical enough.  The `id` field is provisional (Python writes
`len(holes) + 1`; ids are re-assigned after ranking either way). -/
def mkHole (sqrtFn : ℚ → ℚ) (group0 : List CandidateCircle) : Option Hole :=
  let bg := chooseBest group0
  let best := bg.1
  let group := bg.2
  let hole_center : Vec3 :=
    ⟨medianQ (group.map (fun g => g.center.x)),
     medianQ (group.map (fun g => g.center.y)),
     medianQ (group.map (fun g => g.center.z))⟩
  let avg_radius := medianQ (group.map (fun g => g.radius))
  let avg_axis := normalizeAxis sqrtFn (weightedAxis group)
  let alignment := |avg_axis.z|
  if alignment < MIN_VERTICAL_ALIGNMENT then none
  else
    let zvals := group.map (fun g => g.center.z)
    some { id := 0
           center := hole_center
           radius := avg_radius
           num_circles := group.length
           z_depth := maxQ zvals - minQ zvals
           vertical_alignment := alignment
           score := calculate_hole_score group best avg_radius alignment
           sources := sourcesOf group }

/-- `for i, h in enumerate(holes, 1): h['id'] = i`, starting from `k`. -/
def assignFrom (k : ℕ) : List Hole → List Hole
  | [] => []
  | h :: t => { h with id := k } :: assignFrom (k + 1) t

/-- Dense 1-based id assignment in list order. -/
def assignIds (l : List Hole) : List Hole := assignFrom 1 l

/-- The hole list as built by the per-cluster loop, in cluster discovery
order, before ranking (with the provisional `len(holes) + 1` ids). -/
def rawHoles (sqrtFn : ℚ → ℚ) (l : List CandidateCircle) : List Hole :=
  assignIds ((holeGroups l).filterMap (mkHole sqrtFn))

/-- `combine_and_group(all_circles)` from `src/geometry/extraction.py`: radius
pre-filter, DBSCAN grouping, per-cluster fusion, stable descending sort by
score, score-threshold filter, truncation to `MAX_CANDIDATES`, dense 1-based
id assignment.  (The unused `shape=None` parameter is dropped.) -/
def combine_and_group (sqrtFn : ℚ → ℚ) (l : List CandidateCircle) : List Hole :=
  if l.isEmpty then []
  else if (filteredCands l).isEmpty then []
  else
    assignIds
      (((sortDescBy Hole.score (rawHoles sqrtFn l)).filter
          (fun h => decide (MIN_SCORE_THRESHOLD ≤ h.score))).take MAX_CANDIDATES)

/-! ## Selection/export store (src/processing/export.py) -/

/-- Round-half-to-even to an integer.  Python's `round` on the exact
represented value. -/
def roundHalfEven (q : ℚ) : ℤ :=
  let f := ⌊q⌋
  let r := q - f
  if r < 1/2 then f
  else if 1/2 < r then f + 1
  else if f % 2 = 0 then f else f + 1

/-- Python `round(q, ndigits)` modelled on exact rationals. -/
def pyRound (ndigits : ℕ) (q : ℚ) : ℚ :=
  (roundHalfEven (q * 10 ^ ndigits) : ℚ) / 10 ^ ndigits

/-- One entry of `repositionPointDataArray`, with the fields the Python dict
carries. -/
structure ExportRecord where
  HoleID : String
  Shape : ℕ
  group : ℕ
  radius : ℚ
  num_circles : ℕ
  score : ℚ
  point1 : Vec3
  point2 : Vec3
  point3 : Vec3
  point4 : Vec3
deriving DecidableEq

/-- The record `generate_export_json` emits for the `i`-th selected hole
(1-based `i`). -/
def mkExportRecord (i : ℕ) (h : Hole) : ExportRecord :=
  let cx := h.center.x
  let cy := h.center.y
  let cz := h.center.z
  let r := h.radius
  let off := r * (7/10)
  { HoleID := "BS-" ++ toString i
    Shape := 2
    group := 0
    radius := pyRound 4 r
    num_circles := h.num_circles
    score := pyRound 2 h.score
    point1 := ⟨pyRound 2 (cx + off), pyRound 2 (cy + off), pyRound 2 cz⟩
    point2 := ⟨pyRound 2 (cx - off), pyRound 2 (cy + off), pyRound 2 cz⟩
    point3 := ⟨pyRound 2 (cx - off), pyRound 2 (cy - off), pyRound 2 cz⟩
    point4 := ⟨pyRound 2 (cx + off), pyRound 2 (cy - off), pyRound 2 cz⟩ }

/-- The `for i, h in enumerate(selected, start=1)` append loop, from an
arbitrary starting label. -/
def exportLoop (i : ℕ) : List Hole → List ExportRecord
  | [] => []
  | h :: hs => mkExportRecord i h :: exportLoop (i + 1) hs

/-- The export document (`{"repositionPointDataArray": [...]}`). -/
structure ExportDoc where
  repositionPointDataArray : List ExportRecord
deriving DecidableEq

/-- `generate_export_json(holes, selected_ids, uid)` from
`src/processing/export.py`.  `selected_ids` is kept as the list of ids in
the order they were added; the code only ever tests membership in it.  The
file write is not modelled; the function returns the document and the file
name, as the source does. -/
def generate_export_json (holes : List Hole) (selected_ids : List ℕ) (uid : String) :
    ExportDoc × String :=
  let selected := holes.filter (fun h => decide (h.id ∈ selected_ids))
  (⟨exportLoop 1 selected⟩, "holes_export_" ++ uid ++ ".json")

/-! ## Curve sampler (src/geometry/utils.py, `sample_edge_points`) -/

/-- The kernel-side outcomes one call of `sample_edge_points` can observe:
the curve's parametric domain (`none` when the adaptor or the domain query
raises), the per-parameter evaluation outcomes (`none` for an evaluation
that raises; entries beyond `n_samples` are meaningless), and the polygonal
approximation (`none` when the kernel raises or returns no polygon), with
its vertices already transformed. -/
structure EdgeOracle where
  domain : Option (ℚ × ℚ)
  evals : List (Option Vec3)
  poly : Option (List Vec3)

/-- `sample_edge_points(edge, n_samples)` from `src/geometry/utils.py`.
The point list is NOT reset between the parametric attempt and the
polygonal fallback: the fallback extends whatever partial points the
parametric loop accumulated, and the final `return pts` returns the
accumulated list whatever its length. -/
def sample_edge_points (o : EdgeOracle) (n_samples : ℕ) : List Vec3 :=
  let pts :=
    match o.domain with
    | some (f, l) => if 1 / 10 ^ 7 < |l - f| then (o.evals.take n_samples).filterMap id else []
    | none => []
  if 4 ≤ pts.length then pts
  else
    match o.poly with
    | some nodes => pts ++ nodes
    | none => pts

/-! ## Job pipeline (src/processing/pipeline.py, `process_step_file_async`) -/

/-- The outcome of one Python step that may raise. -/
inductive StepOutcome (α : Type) where
  | ok (val : α)
  | exn (msg : String)

/-- The oracle for everything `process_step_file_async` runs inside its
`try` block that can raise: kernel model loading, the three extractors, the
clustering call, the mesh step, and the two json file writes. -/
structure JobOracle where
  loadShape : StepOutcome Unit
  analytic : StepOutcome (List CandidateCircle)
  cyls : StepOutcome (List CandidateCircle)
  fitted : StepOutcome (List CandidateCircle)
  clusterRun : List CandidateCircle → StepOutcome (List Hole)
  meshRun : StepOutcome (List Vec3 × List (ℕ × ℕ × ℕ))
  saveMesh : StepOutcome Unit
  saveHoles : StepOutcome Unit

/-- The per-uid state the worker leaves behind in the shared stores
(`PROGRESS[uid]`, `MESH_FILES[uid]`, `HOLE_DATA[uid]`, `SELECTED_HOLES[uid]`). -/
structure JobState where
  percent : ℕ
  status : String
  meshFile : Option String
  holes : List Hole
  selected : Finset ℕ
deriving DecidableEq

/-- The `try` block of `process_step_file_async`: load, extract, cluster,
triangulate, persist; the early `return` when the kernel produced no
vertices or no faces is the success state with `mesh = None` and the holes
kept.  Only the final store state is modelled (intermediate progress writes
are overwritten before the worker finishes). -/
def pipelineBody (o : JobOracle) (uid : String) : Except String JobState :=
  match o.loadShape with
  | .exn m => .error m
  | .ok _ =>
  match o.analytic with
  | .exn m => .error m
  | .ok analytic =>
  match o.cyls with
  | .exn m => .error m
  | .ok cyls =>
  match o.fitted with
  | .exn m => .error m
  | .ok fitted =>
  match o.clusterRun (analytic ++ cyls ++ fitted) with
  | .exn m => .error m
  | .ok holes =>
  match o.meshRun with
  | .exn m => .error m
  | .ok vf =>
  if vf.1.isEmpty || vf.2.isEmpty then
    .ok { percent := 100, status := "No mesh produced", meshFile := none
          holes := holes, selected := ∅ }
  else
  match o.saveMesh with
  | .exn m => .error m
  | .ok _ =>
  match o.saveHoles with
  | .exn m => .error m
  | .ok _ =>
  .ok { percent := 100
        status := "Done - " ++ toString holes.length ++ " holes detected"
        meshFile := some ("mesh_" ++ uid ++ ".json")
        holes := holes
        selected := ∅ }

/-- `process_step_file_async(uid, step_path)`: the `try` body with its
`except Exception` boundary, which records the terminal error state. -/
def process_step_file_async (o : JobOracle) (uid : String) : JobState :=
  match pipelineBody o uid with
  | .ok st => st
  | .error e =>
      { percent := 100, status := "Error: " ++ e, meshFile := none
        holes := [], selected := ∅ }

/-! ## Toggle handler (src/handlers.py, `/api/toggle`) -/

/-- The per-uid selection store `SELECTED_HOLES`, as an association list. -/
def SelStore : Type := List (String × Finset ℕ)

/-- Store lookup (`uid in SELECTED_HOLES` / `SELECTED_HOLES[uid]`). -/
def SelStore.lookup (s : SelStore) (uid : String) : Option (Finset ℕ) :=
  (List.find? (fun p => decide (p.1 = uid)) s).map (fun p => p.2)

/-- Store update `SELECTED_HOLES[uid] = v`: replace the binding if present,
append it otherwise. -/
def SelStore.set (s : SelStore) (uid : String) (v : Finset ℕ) : SelStore :=
  match s with
  | [] => [(uid, v)]
  | p :: t => if p.1 = uid then (uid, v) :: t else p :: SelStore.set t uid v

/-- What the toggle endpoint can answer.  The embedding includes a
`notFound` alternative so that "reported as not found" is statable; the
handler itself never produces it. -/
inductive ApiResponse where
  | ok (selected : Finset ℕ)
  | notFound
deriving DecidableEq

/-- The `/api/toggle` branch of `UploadHandler.do_GET`: an absent uid key is
initialized to an empty set, `id=0` (also the fallback for an unparsable id)
is a no-op read, any other id has its membership flipped; the response is
always 200 with the current selection. -/
def toggleHandler (store : SelStore) (uid : String) (hole_id : ℕ) :
    ApiResponse × SelStore :=
  let store1 := if (SelStore.lookup store uid).isSome then store else SelStore.set store uid ∅
  let cur := (SelStore.lookup store1 uid).getD ∅
  if hole_id = 0 then (.ok cur, store1)
  else
    let newSel := if hole_id ∈ cur then cur.erase hole_id else insert hole_id cur
    (.ok newSel, SelStore.set store1 uid newSel)

/-- A hole with its `id` field blanked, for statements that compare ranked
holes with pre-ranking holes (ids are rewritten by the final dense
re-assignment). -/
def Hole.eraseId (h : Hole) : Hole := { h with id := 0 }

/-! ## Helper lemmas -/

theorem length_assignFrom (k : ℕ) (l : List Hole) : (assignFrom k l).length = l.length := by
  induction l generalizing k with
  | nil => rfl
  | cons h t ih => simp [assignFrom, ih]

theorem map_eraseId_assignFrom (k : ℕ) (l : List Hole) :
    (assignFrom k l).map Hole.eraseId = l.map Hole.eraseId := by
  induction l generalizing k with
  | nil => rfl
  | cons h t ih => simp [assignFrom, ih, Hole.eraseId]

theorem map_id_assignFrom (k : ℕ) (l : List Hole) :
    (assignFrom k l).map Hole.id = List.range' k l.length := by
  induction l generalizing k with
  | nil => rfl
  | cons h t ih => simp [assignFrom, ih, List.range']

theorem mem_assignFrom (k : ℕ) (l : List Hole) (h : Hole) (hm : h ∈ assignFrom k l) :
    ∃ h' ∈ l, h.score = h'.score ∧ h.vertical_alignment = h'.vertical_alignment := by
  induction l generalizing k with
  | nil => simp [assignFrom] at hm
  | cons a t ih =>
      simp only [assignFrom, List.mem_cons] at hm
      rcases hm with rfl | hm
      · exact ⟨a, List.mem_cons_self a t, rfl, rfl⟩
      · obtain ⟨h', hh', e1, e2⟩ := ih (k + 1) hm
        exact ⟨h', List.mem_cons_of_mem a hh', e1, e2⟩

theorem pairwise_assignFrom (k : ℕ) (l : List Hole)
    (hp : l.Pairwise (fun a b => b.score ≤ a.score)) :
    (assignFrom k l).Pairwise (fun a b => b.score ≤ a.score) := by
  induction l generalizing k with
  | nil => exact List.Pairwise.nil
  | cons a t ih =>
      rcases hp with _ | ⟨ha, ht⟩
      refine List.Pairwise.cons ?_ (ih (k + 1) ht)
      intro b hb
      obtain ⟨b', hb', e1, _⟩ := mem_assignFrom _ _ _ hb
      simpa [e1] using ha b' hb'

theorem mem_insertDescBy (key : α → ℚ) (x a : α) (l : List α) :
    a ∈ insertDescBy key x l ↔ a = x ∨ a ∈ l := by
  induction l with
  | nil => simp [insertDescBy]
  | cons y ys ih =>
      by_cases hxy : key x < key y
      · simp only [insertDescBy, if_pos hxy, List.mem_cons, ih]
        tauto
      · simp only [insertDescBy, if_neg hxy, List.mem_cons]

theorem pairwise_insertDescBy (key : α → ℚ) (x : α) (l : List α)
    (hp : l.Pairwise (fun a b => key b ≤ key a)) :
    (insertDescBy key x l).Pairwise (fun a b => key b ≤ key a) := by
  induction l with
  | nil => simp [insertDescBy]
  | cons y ys ih =>
      rcases hp with _ | ⟨hy, hys⟩
      by_cases hxy : key x < key y
      · rw [insertDescBy, if_pos hxy]
        refine List.Pairwise.cons ?_ (ih hys)
        intro b hb
        rcases (mem_insertDescBy key x b ys).mp hb with rfl | hb
        · exact le_of_lt hxy
        · exact hy b hb
      · rw [insertDescBy, if_neg hxy]
        refine List.Pairwise.cons ?_ (List.Pairwise.cons hy hys)
        intro b hb
        rcases List.mem_cons.mp hb with rfl | hb
        · exact le_of_not_lt hxy
        · exact le_trans (hy b hb) (le_of_not_lt hxy)

theorem pairwise_sortDescBy (key : α → ℚ) (l : List α) :
    (sortDescBy key l).Pairwise (fun a b => key b ≤ key a) := by
  induction l with
  | nil => exact List.Pairwise.nil
  | cons x xs ih => exact pairwise_insertDescBy key x _ ih

theorem filter_key_insertDescBy (key : α → ℚ) (s : ℚ) (x : α) (l : List α) :
    (insertDescBy key x l).filter (fun a => decide (key a = s)) =
      (x :: l).filter (fun a => decide (key a = s)) := by
  induction l with
  | nil => rfl
  | cons y ys ih =>
      by_cases hxy : key x < key y
      · rw [insertDescBy, if_pos hxy]
        by_cases hy : key y = s
        · have hx : ¬ key x = s := by
            intro hx
            rw [hx, hy] at hxy
            exact lt_irrefl s hxy
          simp [List.filter_cons, hy, hx, ih]
        · simp [List.filter_cons, hy, ih]
      · rw [insertDescBy, if_neg hxy]

theorem filter_key_sortDescBy (key : α → ℚ) (s : ℚ) (l : List α) :
    (sortDescBy key l).filter (fun a => decide (key a = s)) =
      l.filter (fun a => decide (key a = s)) := by
  induction l with
  | nil => rfl
  | cons x xs ih =>
      rw [sortDescBy, filter_key_insertDescBy]
      simp only [List.filter_cons]
      rw [ih]

theorem mem_sortDescBy (key : α → ℚ) (a : α) (l : List α) :
    a ∈ sortDescBy key l ↔ a ∈ l := by
  induction l with
  | nil => simp [sortDescBy]
  | cons x xs ih =>
      rw [sortDescBy, mem_insertDescBy]
      simp [ih]

theorem mkHole_alignment (sqrtFn : ℚ → ℚ) (g : List CandidateCircle) (h : Hole)
    (hm : mkHole sqrtFn g = some h) :
    MIN_VERTICAL_ALIGNMENT ≤ h.vertical_alignment := by
  unfold mkHole at hm
  by_cases hc :
      |(normalizeAxis sqrtFn (weightedAxis (chooseBest g).2)).z| < MIN_VERTICAL_ALIGNMENT
  · simp only [hc, if_pos] at hm
    exact absurd hm (Option.some_ne_none _).symm
    -- unreachable
  · simp only [hc, if_neg, if_false, Option.some.injEq] at hm
    rw [← hm]
    exact le_of_not_lt hc

theorem filter_score_map_eraseId (s : ℚ) (l : List Hole) :
    (l.map Hole.eraseId).filter (fun h => decide (h.score = s)) =
      (l.filter (fun h => decide (h.score = s))).map Hole.eraseId := by
  induction l with
  | nil => rfl
  | cons a t ih =>
      by_cases ha : a.score = s
      · simp [List.filter_cons, Hole.eraseId, ha, ih]
      · simp [List.filter_cons, Hole.eraseId, ha, ih]

theorem filter_take_append (p : α → Bool) (n : ℕ) (l : List α) :
    ∃ t, (l.take n).filter p ++ t = l.filter p := by
  refine ⟨(l.drop n).filter p, ?_⟩
  rw [← List.filter_append, List.take_append_drop]

theorem filter_thr_filter_eq (s : ℚ) (hs : MIN_SCORE_THRESHOLD ≤ s) (L : List Hole) :
    (L.filter (fun h => decide (MIN_SCORE_THRESHOLD ≤ h.score))).filter
        (fun h => decide (h.score = s)) =
      L.filter (fun h => decide (h.score = s)) := by
  induction L with
  | nil => rfl
  | cons a t ih =>
      by_cases ha : a.score = s
      · have hthr : MIN_SCORE_THRESHOLD ≤ a.score := ha ▸ hs
        simp [List.filter_cons, ha, hthr, hs, ih]
      · by_cases hthr : MIN_SCORE_THRESHOLD ≤ a.score
        · simp [List.filter_cons, ha, hthr, ih]
        · simp [List.filter_cons, ha, hthr, ih]

theorem filter_thr_filter_nil (s : ℚ) (hs : ¬ MIN_SCORE_THRESHOLD ≤ s) (L : List Hole) :
    (L.filter (fun h => decide (MIN_SCORE_THRESHOLD ≤ h.score))).filter
        (fun h => decide (h.score = s)) = [] := by
  induction L with
  | nil => rfl
  | cons a t ih =>
      by_cases hthr : MIN_SCORE_THRESHOLD ≤ a.score
      · have ha : ¬ a.score = s := fun e => hs (e ▸ hthr)
        simp [List.filter_cons, hthr, ha, ih]
      · simp [List.filter_cons, hthr, ih]

/-- Claim C2: every hole list returned by `combine_and_group` satisfies, for
any square-root function and any input candidate sequence: every retained
hole has `vertical_alignment >= MIN_VERTICAL_ALIGNMENT` and
`score >= MIN_SCORE_THRESHOLD`; the list length is at most `MAX_CANDIDATES`;
the list is sorted descending by `score`, with ties kept in the original
cluster discovery order (for each score value, the retained holes with that
score are a prefix, up to the id rewrite, of the pre-ranking hole list
`rawHoles`, which is in cluster discovery order); and ids are dense `1..N`
in final order. -/
theorem combine_and_group_invariants (sqrtFn : ℚ → ℚ) (l : List CandidateCircle) :
    (∀ h ∈ combine_and_group sqrtFn l,
        MIN_VERTICAL_ALIGNMENT ≤ h.vertical_alignment ∧ MIN_SCORE_THRESHOLD ≤ h.score) ∧
    (combine_and_group sqrtFn l).length ≤ MAX_CANDIDATES ∧
    (combine_and_group sqrtFn l).Pairwise (fun a b => b.score ≤ a.score) ∧
    (∀ s : ℚ, ∃ t,
        ((combine_and_group sqrtFn l).map Hole.eraseId).filter (fun h => decide (h.score = s))
            ++ t
          = ((rawHoles sqrtFn l).map Hole.eraseId).filter (fun h => decide (h.score = s))) ∧
    (combine_and_group sqrtFn l).map Hole.id = List.range' 1 (combine_and_group sqrtFn l).length
    := by
  by_cases h0 : l.isEmpty
  · rw [combine_and_group, if_pos h0]
    exact ⟨by simp, by simp, List.Pairwise.nil,
      fun s => ⟨((rawHoles sqrtFn l).map Hole.eraseId).filter (fun h => decide (h.score = s)),
        by simp⟩, rfl⟩
  by_cases h1 : (filteredCands l).isEmpty
  · rw [combine_and_group, if_neg h0, if_pos h1]
    exact ⟨by simp, by simp, List.Pairwise.nil,
      fun s => ⟨((rawHoles sqrtFn l).map Hole.eraseId).filter (fun h => decide (h.score = s)),
        by simp⟩, rfl⟩
  have hout : combine_and_group sqrtFn l =
      assignFrom 1 (((sortDescBy Hole.score (rawHoles sqrtFn l)).filter
        (fun h => decide (MIN_SCORE_THRESHOLD ≤ h.score))).take MAX_CANDIDATES) := by
    rw [combine_and_group, if_neg h0, if_neg h1]
    rfl
  refine ⟨?_, ?_, ?_, ?_, ?_⟩
  · -- alignment and score invariants for every retained hole
    intro h hm
    rw [hout] at hm
    obtain ⟨h', hT, e1, e2⟩ := mem_assignFrom _ _ _ hm
    have hF := List.take_subset _ _ hT
    have hfil := List.mem_filter.mp hF
    have hscore : MIN_SCORE_THRESHOLD ≤ h'.score := of_decide_eq_true hfil.2
    have hraw : h' ∈ rawHoles sqrtFn l := (mem_sortDescBy Hole.score h' _).mp hfil.1
    rw [rawHoles] at hraw
    obtain ⟨h'', hfm, e3, e4⟩ := mem_assignFrom _ _ _ hraw
    obtain ⟨g, _, hg⟩ := List.mem_filterMap.mp hfm
    have halign := mkHole_alignment sqrtFn g h'' hg
    exact ⟨by rw [e2, e4]; exact halign, by rw [e1]; exact hscore⟩
  · -- length bound
    rw [hout, length_assignFrom]
    exact List.length_take_le _ _
  · -- sorted descending by score
    rw [hout]
    apply pairwise_assignFrom
    apply List.Pairwise.sublist (List.take_sublist _ _)
    apply List.Pairwise.filter
    exact pairwise_sortDescBy Hole.score _
  · -- stability: per score value, the output is a prefix of `rawHoles`
    intro s
    rw [hout, map_eraseId_assignFrom, filter_score_map_eraseId, filter_score_map_eraseId]
    obtain ⟨t0, ht0⟩ := filter_take_append (fun h => decide (h.score = s)) MAX_CANDIDATES
      ((sortDescBy Hole.score (rawHoles sqrtFn l)).filter
        (fun h => decide (MIN_SCORE_THRESHOLD ≤ h.score)))
    by_cases hs : MIN_SCORE_THRESHOLD ≤ s
    · rw [filter_thr_filter_eq s hs, filter_key_sortDescBy Hole.score s] at ht0
      refine ⟨t0.map Hole.eraseId, ?_⟩
      rw [← List.map_append, ht0]
    · rw [filter_thr_filter_nil s hs] at ht0
      obtain ⟨e1, -⟩ := List.append_eq_nil.mp ht0
      rw [e1]
      exact ⟨((rawHoles sqrtFn l).filter (fun h => decide (h.score = s))).map Hole.eraseId,
        by simp⟩
  · -- dense 1-based ids in final order
    rw [hout, map_id_assignFrom, length_assignFrom]

set_option maxRecDepth 10000

/-- Claim C6: for every group composition, representative, average radius and
alignment value, `calculate_hole_score` returns a value between 0 and 100
inclusive. -/
theorem calculate_hole_score_bounds (group : List CandidateCircle)
    (representative : CandidateCircle) (avg_radius alignment : ℚ) :
    0 ≤ calculate_hole_score group representative avg_radius alignment ∧
      calculate_hole_score group representative avg_radius alignment ≤ 100 := by
  unfold calculate_hole_score
  constructor
  · exact le_max_left 0 _
  · exact max_le (by norm_num) (min_le_left _ _)


theorem length_exportLoop (k : ℕ) (l : List Hole) : (exportLoop k l).length = l.length := by
  induction l generalizing k with
  | nil => rfl
  | cons h t ih => simp [exportLoop, ih]

theorem get_exportLoop (k i : ℕ) (l : List Hole) (h : Hole) (hm : l.get? i = some h) :
    (exportLoop k l).get? i = some (mkExportRecord (k + i) h) := by
  induction l generalizing k i with
  | nil => simp at hm
  | cons a t ih =>
      cases i with
      | zero =>
          simp only [List.get?] at hm
          cases hm
          simp [exportLoop]
      | succ j =>
          simp only [List.get?] at hm
          have := ih (k + 1) j hm
          simpa [exportLoop, Nat.add_assoc, Nat.add_comm 1 j] using this

/-- Claim C1: for every selected hole with center `(cx, cy, cz)` and radius
`r`, the export emits exactly one record (one record per selected hole,
positionally) whose four corner points are `(cx+off, cy+off, cz)`,
`(cx-off, cy+off, cz)`, `(cx-off, cy-off, cz)`, `(cx+off, cy-off, cz)` in
that order with `off = r*0.7`, the radius rounded to 4 decimal places, the
score to 2, and every point coordinate to 2; in particular a single
selected hole at center (10,20,5) with radius 6.0 exports
`point1=(14.2,24.2,5)`, `point2=(5.8,24.2,5)`, `point3=(5.8,15.8,5)`,
`point4=(14.2,15.8,5)`. -/
theorem export_schema :
    (∀ (holes : List Hole) (sel : List ℕ) (uid : String),
        (generate_export_json holes sel uid).1.repositionPointDataArray.length =
          (holes.filter (fun h => decide (h.id ∈ sel))).length) ∧
    (∀ (holes : List Hole) (sel : List ℕ) (uid : String) (i : ℕ) (h : Hole),
        (holes.filter (fun h => decide (h.id ∈ sel))).get? i = some h →
        (generate_export_json holes sel uid).1.repositionPointDataArray.get? i =
          some { HoleID := "BS-" ++ toString (1 + i)
                 Shape := 2
                 group := 0
                 radius := pyRound 4 h.radius
                 num_circles := h.num_circles
                 score := pyRound 2 h.score
                 point1 := ⟨pyRound 2 (h.center.x + h.radius * (7/10)),
                            pyRound 2 (h.center.y + h.radius * (7/10)), pyRound 2 h.center.z⟩
                 point2 := ⟨pyRound 2 (h.center.x - h.radius * (7/10)),
                            pyRound 2 (h.center.y + h.radius * (7/10)), pyRound 2 h.center.z⟩
                 point3 := ⟨pyRound 2 (h.center.x - h.radius * (7/10)),
                            pyRound 2 (h.center.y - h.radius * (7/10)), pyRound 2 h.center.z⟩
                 point4 := ⟨pyRound 2 (h.center.x + h.radius * (7/10)),
                            pyRound 2 (h.center.y - h.radius * (7/10)),
                            pyRound 2 h.center.z⟩ }) ∧
    (generate_export_json [⟨1, ⟨10, 20, 5⟩, 6, 2, 0, 1, 50, {SourceKind.analytic_edge}⟩] [1]
          "job").1.repositionPointDataArray.map
        (fun r => (r.point1, r.point2, r.point3, r.point4)) =
      [(⟨71/5, 121/5, 5⟩, ⟨29/5, 121/5, 5⟩, ⟨29/5, 79/5, 5⟩, ⟨71/5, 79/5, 5⟩)] := by
  refine ⟨?_, ?_, ?_⟩
  · intro holes sel uid
    simp [generate_export_json, length_exportLoop]
  · intro holes sel uid i h hm
    have := get_exportLoop 1 i _ h hm
    simpa [generate_export_json, mkExportRecord] using this
  · with_unfolding_all decide

/-- Claim C1 witness: the scenario instance, obtained by applying the schema
theorem at the concrete input. -/
theorem export_schema_witness :
    (generate_export_json [⟨1, ⟨10, 20, 5⟩, 6, 2, 0, 1, 50, {SourceKind.analytic_edge}⟩] [1]
        "job").1.repositionPointDataArray.get? 0 =
      some { HoleID := "BS-" ++ toString (1 + 0)
             Shape := 2
             group := 0
             radius := pyRound 4 6
             num_circles := 2
             score := pyRound 2 50
             point1 := ⟨pyRound 2 (10 + 6 * (7/10)), pyRound 2 (20 + 6 * (7/10)), pyRound 2 5⟩
             point2 := ⟨pyRound 2 (10 - 6 * (7/10)), pyRound 2 (20 + 6 * (7/10)), pyRound 2 5⟩
             point3 := ⟨pyRound 2 (10 - 6 * (7/10)), pyRound 2 (20 - 6 * (7/10)), pyRound 2 5⟩
             point4 := ⟨pyRound 2 (10 + 6 * (7/10)), pyRound 2 (20 - 6 * (7/10)),
                        pyRound 2 5⟩ } :=
  export_schema.2.1 [⟨1, ⟨10, 20, 5⟩, 6, 2, 0, 1, 50, {SourceKind.analytic_edge}⟩] [1] "job" 0
    ⟨1, ⟨10, 20, 5⟩, 6, 2, 0, 1, 50, {SourceKind.analytic_edge}⟩
    (by with_unfolding_all decide)

/-- Claim C4 counterexample: two holes with ids 1 and 2 (centers (0,0,0) and
(100,100,100)), selected in the order [2, 1].  If the export followed the
selection order, the first record's `point1.x` would be `104.2 = 521/5`
(hole 2); the code emits hole-list order, so the sequence of `point1.x`
values is `[4.2, 104.2]`, refuting the claimed selection-order emission. -/
theorem export_selection_order_cex :
    ((generate_export_json
        [⟨1, ⟨0, 0, 0⟩, 6, 1, 0, 1, 50, {SourceKind.analytic_edge}⟩,
         ⟨2, ⟨100, 100, 100⟩, 6, 1, 0, 1, 50, {SourceKind.analytic_edge}⟩]
        [2, 1] "job").1.repositionPointDataArray.map (fun r => r.point1.x) =
      [21/5, 521/5]) ∧ ((21/5 : ℚ) ≠ 521/5) := by
  with_unfolding_all decide

/-- Claim C4 (amended): the export emits one record per selected hole in
stored hole-list order — the selection set contributes only membership —
labelled 1-based in that order (`enumFrom 1` pairs each selected hole with
its 1-based position in hole-list order). -/
theorem export_in_hole_list_order :
    ∀ (holes : List Hole) (sel : List ℕ) (uid : String),
      (generate_export_json holes sel uid).1.repositionPointDataArray =
        ((holes.filter (fun h => decide (h.id ∈ sel))).enumFrom 1).map
          (fun p => mkExportRecord p.1 p.2) ∧
      (generate_export_json holes sel uid).1.repositionPointDataArray.map
          (fun r => r.HoleID) =
        (List.range' 1 (holes.filter (fun h => decide (h.id ∈ sel))).length).map
          (fun i => "BS-" ++ toString i) := by
  have loopEq : ∀ (l : List Hole) (k : ℕ),
      exportLoop k l = (l.enumFrom k).map (fun p => mkExportRecord p.1 p.2) := by
    intro l
    induction l with
    | nil => intro k; rfl
    | cons a t ih => intro k; simp [exportLoop, List.enumFrom, ih]
  intro holes sel uid
  constructor
  · simp only [generate_export_json]
    exact loopEq _ 1
  · simp only [generate_export_json, loopEq, List.map_map]
    have hf : ∀ (l : List Hole) (k : ℕ),
        (l.enumFrom k).map (fun p => "BS-" ++ toString p.1) =
          (List.range' k l.length).map (fun i => "BS-" ++ toString i) := by
      intro l
      induction l with
      | nil => intro k; rfl
      | cons a t ih => intro k; simp [List.enumFrom, List.range', ih]
    exact hf _ 1

theorem export_filter_congr (holes : List Hole) (s1 s2 : List ℕ) (uid : String)
    (hiff : ∀ h ∈ holes, (h.id ∈ s1 ↔ h.id ∈ s2)) :
    generate_export_json holes s1 uid = generate_export_json holes s2 uid := by
  unfold generate_export_json
  have : holes.filter (fun h => decide (h.id ∈ s1)) =
      holes.filter (fun h => decide (h.id ∈ s2)) := by
    apply List.filter_congr
    intro h hm
    exact decide_eq_decide.mpr (hiff h hm)
  rw [this]

/-- Claim C10: the export document is unaffected by members of the selection
set that match no hole id: two selections that agree on the ids present in
the hole list yield identical export documents, and adding (toggling on) an
id that is not the id of any stored hole leaves the export unchanged. -/
theorem export_depends_only_on_matched_selection :
    (∀ (holes : List Hole) (s1 s2 : List ℕ) (uid : String),
        (∀ h ∈ holes, (h.id ∈ s1 ↔ h.id ∈ s2)) →
        generate_export_json holes s1 uid = generate_export_json holes s2 uid) ∧
    (∀ (holes : List Hole) (sel : List ℕ) (x : ℕ) (uid : String),
        (∀ h ∈ holes, h.id ≠ x) →
        generate_export_json holes (x :: sel) uid = generate_export_json holes sel uid) := by
  refine ⟨export_filter_congr, ?_⟩
  intro holes sel x uid hne
  apply export_filter_congr
  intro h hm
  simp [List.mem_cons, hne h hm]

/-- Claim C10 witness: concrete selections [5] and [7], neither matching the
stored hole id 1, yield the same export document. -/
theorem export_depends_only_on_matched_selection_witness :
    generate_export_json [⟨1, ⟨0, 0, 0⟩, 6, 1, 0, 1, 50, {SourceKind.analytic_edge}⟩] [5]
        "job" =
      generate_export_json [⟨1, ⟨0, 0, 0⟩, 6, 1, 0, 1, 50, {SourceKind.analytic_edge}⟩] [7]
        "job" :=
  export_depends_only_on_matched_selection.1
    [⟨1, ⟨0, 0, 0⟩, 6, 1, 0, 1, 50, {SourceKind.analytic_edge}⟩] [5] [7] "job"
    (by with_unfolding_all decide)

theorem lookup_set (s : SelStore) (uid : String) (v : Finset ℕ) :
    SelStore.lookup (SelStore.set s uid v) uid = some v := by
  induction s with
  | nil => simp [SelStore.set, SelStore.lookup, List.find?]
  | cons p t ih =>
      by_cases hp : p.1 = uid
      · simp [SelStore.set, SelStore.lookup, List.find?, hp]
      · simp only [SelStore.set, if_neg hp]
        simpa [SelStore.lookup, List.find?, hp] using ih

/-- Claim C9 counterexample: toggling id 3 for a uid with no job succeeds
(HTTP 200 with the new selection, never "not found") and creates selection
state `{3}` for that uid. -/
theorem toggle_unknown_uid_cex :
    (toggleHandler ([] : SelStore) "job" 3).1 = ApiResponse.ok {3} ∧
    (toggleHandler ([] : SelStore) "job" 3).1 ≠ ApiResponse.notFound ∧
    SelStore.lookup (toggleHandler ([] : SelStore) "job" 3).2 "job" = some {3} := by
  refine ⟨rfl, ?_, rfl⟩
  intro h
  exact ApiResponse.noConfusion h

/-- Claim C9 (amended): a toggle request for a uid with no existing job does
not crash the service, but it is not reported as "not found": the handler
initializes an empty selection set for the unknown uid, the toggle succeeds,
and selection state is created for that uid (the selection becomes
`{hole_id}`). -/
theorem toggle_unknown_uid_creates_state :
    ∀ (store : SelStore) (uid : String) (hole_id : ℕ),
      SelStore.lookup store uid = none → hole_id ≠ 0 →
      (toggleHandler store uid hole_id).1 = ApiResponse.ok {hole_id} ∧
      SelStore.lookup (toggleHandler store uid hole_id).2 uid = some {hole_id} := by
  intro store uid hole_id hmiss hne
  have h1 : (SelStore.lookup store uid).isSome = false := by rw [hmiss]; rfl
  have hcur : SelStore.lookup (SelStore.set store uid ∅) uid = some ∅ := lookup_set _ _ _
  simp only [toggleHandler, h1, Bool.false_eq_true, if_false, hcur, Option.getD_some,
    if_neg hne, Finset.not_mem_empty, if_false]
  refine ⟨rfl, ?_⟩
  rw [lookup_set]
  rfl

/-- Claim C9 witness for the amended statement, at the empty store. -/
theorem toggle_unknown_uid_creates_state_witness :
    (toggleHandler ([] : SelStore) "job" 3).1 = ApiResponse.ok {3} ∧
    SelStore.lookup (toggleHandler ([] : SelStore) "job" 3).2 "job" = some {3} :=
  toggle_unknown_uid_creates_state ([] : SelStore) "job" 3 rfl (by decide)

/-- Claim C8 counterexample: with the parametric path unavailable and a
6-vertex kernel polygon, `sample_edge_points` with `n_samples = 4` returns 6
points — more than `n_samples`. -/
theorem sample_edge_points_length_cex :
    (sample_edge_points ⟨none, [], some (List.replicate 6 ⟨0, 0, 0⟩)⟩ 4).length = 6 ∧
    ¬ (sample_edge_points ⟨none, [], some (List.replicate 6 ⟨0, 0, 0⟩)⟩ 4).length ≤ 4 := by
  with_unfolding_all decide

/-- Claim C8 (amended): the curve sampler always returns a finite sequence;
its length is bounded by `n_samples` plus the vertex count of the kernel's
polygonal approximation, and by `n_samples` alone whenever the polygonal
fallback is unavailable — but not by `n_samples` in general, since the
fallback appends the polygon's vertices to the partial parametric points. -/
theorem sample_edge_points_length_bound :
    ∀ (o : EdgeOracle) (n_samples : ℕ),
      (sample_edge_points o n_samples).length ≤
          n_samples + (match o.poly with | some nodes => nodes.length | none => 0) ∧
        (o.poly = none → (sample_edge_points o n_samples).length ≤ n_samples) := by
  intro o n
  obtain ⟨dom, evals, poly⟩ := o
  have hpts :
      (match dom with
        | some (f, l) =>
            if 1 / 10 ^ 7 < |l - f| then (evals.take n).filterMap id else []
        | none => []).length ≤ n := by
    rcases dom with _ | ⟨f, l⟩
    · simp
    · dsimp only
      split
      · exact le_trans (List.length_filterMap_le _ _) (by simp [List.length_take])
      · simp
  rw [sample_edge_points]
  dsimp only
  split
  · exact ⟨le_trans hpts (Nat.le_add_right _ _), fun _ => hpts⟩
  · rcases poly with _ | nodes
    · exact ⟨le_trans hpts (Nat.le_add_right _ _), fun _ => hpts⟩
    · refine ⟨?_, ?_⟩
      · simp only [List.length_append]
        exact Nat.add_le_add hpts le_rfl
      · intro hnone
        exact Option.noConfusion hnone

/-- Claim C8 witness for the amended statement: no polygon available, one
successful parametric evaluation out of `n_samples = 4`. -/
theorem sample_edge_points_length_bound_witness :
    (sample_edge_points ⟨some (0, 1), [some ⟨0, 0, 0⟩], none⟩ 4).length ≤ 4 :=
  (sample_edge_points_length_bound ⟨some (0, 1), [some ⟨0, 0, 0⟩], none⟩ 4).2 rfl

theorem pipelineBody_ok_percent (o : JobOracle) (uid : String) (st : JobState)
    (h : pipelineBody o uid = Except.ok st) : st.percent = 100 := by
  obtain ⟨ls, an, cy, fi, cl, me, sm, sh⟩ := o
  unfold pipelineBody at h
  cases ls with
  | exn m => exact Except.noConfusion h
  | ok u =>
  cases an with
  | exn m => exact Except.noConfusion h
  | ok anv =>
  cases cy with
  | exn m => exact Except.noConfusion h
  | ok cyv =>
  cases fi with
  | exn m => exact Except.noConfusion h
  | ok fiv =>
  dsimp only [pipelineBody] at h
  cases hcl : cl (anv ++ cyv ++ fiv) with
  | exn m => rw [hcl] at h; exact Except.noConfusion h
  | ok holes =>
  rw [hcl] at h
  dsimp only at h
  cases me with
  | exn m => exact Except.noConfusion h
  | ok vf =>
  dsimp only at h
  by_cases hvf : (vf.1.isEmpty || vf.2.isEmpty) = true
  · rw [if_pos hvf] at h
    cases h
    rfl
  · rw [if_neg hvf] at h
    cases sm with
    | exn m => exact Except.noConfusion h
    | ok u1 =>
    cases sh with
    | exn m => exact Except.noConfusion h
    | ok u2 =>
    cases h
    rfl

/-- Claim C3: whatever the oracle outcomes, the job pipeline terminates with
`percent = 100`; and when any step inside the `try` body raises (the body
evaluates to an error), the job ends in the terminal error state — status
string `"Error: " ++ e`, empty hole list, no mesh reference — rather than
propagating the exception. -/
theorem pipeline_error_boundary :
    ∀ (o : JobOracle) (uid : String),
      (process_step_file_async o uid).percent = 100 ∧
      (∀ e, pipelineBody o uid = Except.error e →
        process_step_file_async o uid =
          { percent := 100, status := "Error: " ++ e, meshFile := none
            holes := [], selected := ∅ }) := by
  intro o uid
  constructor
  · cases hb : pipelineBody o uid with
    | ok st =>
        have := pipelineBody_ok_percent o uid st hb
        simp [process_step_file_async, hb, this]
    | error e => simp [process_step_file_async, hb]
  · intro e he
    simp [process_step_file_async, he]

/-- Claim C3 witness: a concrete job whose model loading raises ends in the
terminal error state with the invariants of the claim. -/
theorem pipeline_error_boundary_witness :
    process_step_file_async
        ⟨StepOutcome.exn "boom", StepOutcome.ok [], StepOutcome.ok [], StepOutcome.ok [],
          fun _ => StepOutcome.ok [], StepOutcome.ok ([], []), StepOutcome.ok (),
          StepOutcome.ok ()⟩ "job" =
      { percent := 100, status := "Error: " ++ "boom", meshFile := none
        holes := [], selected := ∅ } :=
  (pipeline_error_boundary
      ⟨StepOutcome.exn "boom", StepOutcome.ok [], StepOutcome.ok [], StepOutcome.ok [],
        fun _ => StepOutcome.ok [], StepOutcome.ok ([], []), StepOutcome.ok (),
        StepOutcome.ok ()⟩ "job").2 "boom" rfl

theorem mem_expandStep_lt (pts : List Vec3) (s : List ℕ) (j : ℕ)
    (hj : j ∈ expandStep pts s) : j < pts.length := by
  unfold expandStep at hj
  exact List.mem_range.mp (List.mem_filter.mp hj).1

theorem mem_iterateN_expand_lt (pts : List Vec3) :
    ∀ (m : ℕ) (s : List ℕ), (∀ j ∈ s, j < pts.length) →
      ∀ j ∈ iterateN (expandStep pts) m s, j < pts.length := by
  intro m
  induction m with
  | zero => intro s hs; exact hs
  | succ k ih =>
      intro s _
      exact ih (expandStep pts s) (fun j hj => mem_expandStep_lt pts s j hj)

theorem componentsList_mem_lt (pts : List Vec3) (g : List ℕ)
    (hg : g ∈ componentsList pts) : ∀ j ∈ g, j < pts.length := by
  have H : ∀ (L : List ℕ) (acc : List (List ℕ)),
      (∀ g' ∈ acc, ∀ j ∈ g', j < pts.length) → (∀ i ∈ L, i < pts.length) →
      ∀ g' ∈ L.foldl
        (fun acc i => if acc.any (fun g => g.contains i) then acc
          else acc ++ [closureFrom pts i]) acc,
        ∀ j ∈ g', j < pts.length := by
    intro L
    induction L with
    | nil => intro acc hacc _ g' hg'; exact hacc g' hg'
    | cons i t ih =>
        intro acc hacc hL
        simp only [List.foldl_cons]
        by_cases hi : acc.any (fun g => g.contains i)
        · rw [if_pos hi]
          exact ih acc hacc (fun j hj => hL j (List.mem_cons_of_mem i hj))
        · rw [if_neg hi]
          refine ih _ ?_ (fun j hj => hL j (List.mem_cons_of_mem i hj))
          intro g' hg'
          rcases List.mem_append.mp hg' with hacc' | hnew
          · exact hacc g' hacc'
          · have : g' = closureFrom pts i := List.mem_singleton.mp hnew
            subst this
            unfold closureFrom
            refine mem_iterateN_expand_lt pts pts.length [i] ?_
            intro j hj
            rw [List.mem_singleton.mp hj]
            exact hL i (List.mem_cons_self i t)
  exact H (List.range pts.length) [] (by simp) (fun i hi => List.mem_range.mp hi) g hg

theorem filter_filter_self (p : α → Bool) (l : List α) :
    (l.filter p).filter p = l.filter p := by
  induction l with
  | nil => rfl
  | cons a t ih =>
      by_cases ha : p a
      · simp [List.filter_cons, ha, ih]
      · simp [List.filter_cons, ha, ih]

theorem filteredCands_idem (l : List CandidateCircle) :
    filteredCands (filteredCands l) = filteredCands l :=
  filter_filter_self _ l

/-- Claim C7: a candidate whose radius lies outside `[RADIUS_MIN,
RADIUS_MAX]` never appears in the supporting set (cluster group) of any hole
produced by `combine_and_group`: every member of every produced group lies
in the radius window, and the whole aggregation is unchanged if the
out-of-window candidates are removed from the input — so such a candidate
contributes to no hole's center, radius, axis, count, sources, or score. -/
theorem radius_window_supporting_set :
    (∀ (l : List CandidateCircle) (c : CandidateCircle),
        c ∈ (holeGroups l).join →
        RADIUS_MIN ≤ c.radius ∧ c.radius ≤ RADIUS_MAX) ∧
    (∀ (sqrtFn : ℚ → ℚ) (l : List CandidateCircle),
        combine_and_group sqrtFn l = combine_and_group sqrtFn (filteredCands l)) := by
  constructor
  · intro l c hc
    obtain ⟨g, hgmem, hcg⟩ := List.mem_join.mp hc
    unfold holeGroups at hgmem
    obtain ⟨idxs, hidxs, rfl⟩ := List.mem_map.mp hgmem
    obtain ⟨i, hii, rfl⟩ := List.mem_map.mp hcg
    have hlt : i < (filteredCands l).length := by
      have := componentsList_mem_lt _ idxs hidxs i hii
      simpa using this
    have hmemf : (filteredCands l).getD i default ∈ filteredCands l := by
      rw [List.getD_eq_get _ _ hlt]
      exact List.get_mem _ _ _
    have hp := (List.mem_filter.mp hmemf).2
    rw [Bool.and_eq_true] at hp
    exact ⟨of_decide_eq_true hp.1, of_decide_eq_true hp.2⟩
  · intro sqrtFn l
    by_cases h0 : l.isEmpty
    · have : l = [] := List.isEmpty_iff.mp h0
      subst this
      rfl
    by_cases h1 : (filteredCands l).isEmpty
    · have hnil : filteredCands l = [] := List.isEmpty_iff.mp h1
      rw [combine_and_group, if_neg h0, if_pos h1, hnil]
      rfl
    · have hraw : rawHoles sqrtFn (filteredCands l) = rawHoles sqrtFn l := by
        unfold rawHoles holeGroups
        rw [filteredCands_idem]
      have h0' : (filteredCands l).isEmpty = false := by
        rwa [Bool.not_eq_true] at h1
      rw [combine_and_group, if_neg h0, if_neg h1, combine_and_group, h0',
        filteredCands_idem, if_neg h1, hraw]
      simp

/-- Claim C7 witness: a concrete in-window candidate appears in its own
produced group, and the theorem yields its radius bounds. -/
theorem radius_window_supporting_set_witness :
    RADIUS_MIN ≤ (⟨SourceKind.analytic_edge, ⟨0, 0, 0⟩, 6, ⟨0, 0, 1⟩⟩ : CandidateCircle).radius
      ∧ (⟨SourceKind.analytic_edge, ⟨0, 0, 0⟩, 6, ⟨0, 0, 1⟩⟩ : CandidateCircle).radius
        ≤ RADIUS_MAX :=
  radius_window_supporting_set.1 [⟨SourceKind.analytic_edge, ⟨0, 0, 0⟩, 6, ⟨0, 0, 1⟩⟩]
    ⟨SourceKind.analytic_edge, ⟨0, 0, 0⟩, 6, ⟨0, 0, 1⟩⟩ (by with_unfolding_all decide)

theorem componentsList_pair (v w : Vec3) (h : closeB w v = true) :
    componentsList [v, w] = [[0, 1]] := by
  have h' : closeB ([v, w].getD 1 default) ([v, w].getD 0 default) = true := by
    simpa using h
  unfold componentsList closureFrom
  simp [iterateN, expandStep, List.range_succ, List.filter, h, h']

theorem medianQ_pair (a b : ℚ) : medianQ [a, b] = (a + b) / 2 := by
  by_cases hab : a ≤ b
  · have hsort : sortAscQ [a, b] = [a, b] := by
      show insertAscQ a (insertAscQ b (sortAscQ [])) = [a, b]
      show (if a ≤ b then [a, b] else b :: insertAscQ a []) = [a, b]
      rw [if_pos hab]
    unfold medianQ
    rw [hsort]
    norm_num
  · have hsort : sortAscQ [a, b] = [b, a] := by
      show insertAscQ a (insertAscQ b (sortAscQ [])) = [b, a]
      show (if a ≤ b then [a, b] else b :: insertAscQ a []) = [b, a]
      rw [if_neg hab]
      rfl
    unfold medianQ
    rw [hsort]
    norm_num
    ring

theorem sourceWeight_pos (g : CandidateCircle) : 0 < sourceWeight g := by
  unfold sourceWeight
  split_ifs <;> norm_num

theorem weightedAxis_pair_vertical (g1 g2 : CandidateCircle)
    (ha1 : g1.axis = ⟨0, 0, 1⟩) (ha2 : g2.axis = ⟨0, 0, 1⟩) :
    weightedAxis [g1, g2] = ⟨0, 0, 1⟩ := by
  have hw : sourceWeight g1 + sourceWeight g2 ≠ 0 :=
    ne_of_gt (add_pos (sourceWeight_pos g1) (sourceWeight_pos g2))
  unfold weightedAxis
  simp only [List.map_cons, List.map_nil, List.sum_cons, List.sum_nil, ha1, ha2]
  norm_num
  rw [div_self hw]

theorem normalizeAxis_unit (sqrtFn : ℚ → ℚ) (hs : sqrtFn 1 = 1) :
    normalizeAxis sqrtFn ⟨0, 0, 1⟩ = ⟨0, 0, 10 ^ 10 / (10 ^ 10 + 1)⟩ := by
  unfold normalizeAxis
  norm_num [hs]

theorem mkHole_pair (sqrtFn : ℚ → ℚ) (hs : sqrtFn 1 = 1) (g1 g2 : CandidateCircle)
    (ht1 : isTrusted g1 = true) (ht2 : isTrusted g2 = true)
    (ha1 : g1.axis = ⟨0, 0, 1⟩) (ha2 : g2.axis = ⟨0, 0, 1⟩) :
    mkHole sqrtFn [g1, g2] =
      some { id := 0
             center := ⟨medianQ [g1.center.x, g2.center.x], medianQ [g1.center.y, g2.center.y],
                        medianQ [g1.center.z, g2.center.z]⟩
             radius := medianQ [g1.radius, g2.radius]
             num_circles := 2
             z_depth := maxQ [g1.center.z, g2.center.z] - minQ [g1.center.z, g2.center.z]
             vertical_alignment := 10 ^ 10 / (10 ^ 10 + 1)
             score := calculate_hole_score [g1, g2] ((sortZDesc [g1, g2]).headD default)
               (medianQ [g1.radius, g2.radius]) (10 ^ 10 / (10 ^ 10 + 1))
             sources := sourcesOf [g1, g2] } := by
  have hcb : chooseBest [g1, g2] = ((sortZDesc [g1, g2]).headD default, [g1, g2]) := by
    unfold chooseBest
    simp [List.filter, ht1, ht2]
  have halign : |(normalizeAxis sqrtFn (weightedAxis [g1, g2])).z| =
      10 ^ 10 / (10 ^ 10 + 1) := by
    rw [weightedAxis_pair_vertical g1 g2 ha1 ha2, normalizeAxis_unit sqrtFn hs]
    norm_num
  unfold mkHole
  rw [hcb]
  simp only
  rw [halign]
  rw [if_neg (by norm_num [MIN_VERTICAL_ALIGNMENT])]
  simp [List.map_cons]

set_option maxHeartbeats 1000000 in
theorem score_two_support_lower (g : List CandidateCircle) (r : CandidateCircle) (a al : ℚ)
    (hg : g.length = 2) (hal : MIN_VERTICAL_ALIGNMENT ≤ al) :
    24 ≤ calculate_hole_score g r a al := by
  have h1 : (0 : ℚ) ≤ max 0 (25 - |a - 11/2| * (3/2)) := le_max_left _ _
  have h2 : (0 : ℚ) ≤ (al - MIN_VERTICAL_ALIGNMENT) / (1 - MIN_VERTICAL_ALIGNMENT) * 15 := by
    apply mul_nonneg _ (by norm_num)
    apply div_nonneg (by linarith) (by norm_num [MIN_VERTICAL_ALIGNMENT])
  simp only [calculate_hole_score, hg, if_pos hal]
  norm_num
  split_ifs <;> linarith [h1, h2]

theorem combine_and_group_pair (sqrtFn : ℚ → ℚ) (hs : sqrtFn 1 = 1) (g1 g2 : CandidateCircle)
    (hr1 : RADIUS_MIN ≤ g1.radius) (hr1' : g1.radius ≤ RADIUS_MAX)
    (hr2 : RADIUS_MIN ≤ g2.radius) (hr2' : g2.radius ≤ RADIUS_MAX)
    (ht1 : isTrusted g1 = true) (ht2 : isTrusted g2 = true)
    (ha1 : g1.axis = ⟨0, 0, 1⟩) (ha2 : g2.axis = ⟨0, 0, 1⟩)
    (hcl : closeB (featureOf g2) (featureOf g1) = true) :
    combine_and_group sqrtFn [g1, g2] =
      [{ id := 1
         center := ⟨medianQ [g1.center.x, g2.center.x], medianQ [g1.center.y, g2.center.y],
                    medianQ [g1.center.z, g2.center.z]⟩
         radius := medianQ [g1.radius, g2.radius]
         num_circles := 2
         z_depth := maxQ [g1.center.z, g2.center.z] - minQ [g1.center.z, g2.center.z]
         vertical_alignment := 10 ^ 10 / (10 ^ 10 + 1)
         score := calculate_hole_score [g1, g2] ((sortZDesc [g1, g2]).headD default)
           (medianQ [g1.radius, g2.radius]) (10 ^ 10 / (10 ^ 10 + 1))
         sources := sourcesOf [g1, g2] }] := by
  have hfil : filteredCands [g1, g2] = [g1, g2] := by
    unfold filteredCands
    simp [List.filter, hr1, hr1', hr2, hr2']
  have hgroups : holeGroups [g1, g2] = [[g1, g2]] := by
    unfold holeGroups
    rw [hfil]
    simp only [List.map_cons, List.map_nil]
    rw [componentsList_pair _ _ hcl]
    simp
  have hraw : rawHoles sqrtFn [g1, g2] =
      [{ (Option.get! (mkHole sqrtFn [g1, g2])) with id := 1 }] := by
    unfold rawHoles
    rw [hgroups]
    simp only [List.filterMap]
    rw [mkHole_pair sqrtFn hs g1 g2 ht1 ht2 ha1 ha2]
    simp [assignIds, assignFrom, mkHole_pair sqrtFn hs g1 g2 ht1 ht2 ha1 ha2]
  have hscore : 24 ≤ calculate_hole_score [g1, g2] ((sortZDesc [g1, g2]).headD default)
      (medianQ [g1.radius, g2.radius]) (10 ^ 10 / (10 ^ 10 + 1)) :=
    score_two_support_lower _ _ _ _ rfl (by norm_num [MIN_VERTICAL_ALIGNMENT])
  rw [combine_and_group]
  rw [if_neg (by simp), if_neg (by rw [hfil]; simp)]
  rw [hraw]
  rw [mkHole_pair sqrtFn hs g1 g2 ht1 ht2 ha1 ha2]
  simp only [Option.get!]
  rw [show (forall x : Hole, sortDescBy Hole.score [x] = [x]) from fun x => rfl]
  simp only [List.filter]
  rw [show (decide (MIN_SCORE_THRESHOLD ≤
      ({ id := 1
         center := ⟨medianQ [g1.center.x, g2.center.x], medianQ [g1.center.y, g2.center.y],
                    medianQ [g1.center.z, g2.center.z]⟩
         radius := medianQ [g1.radius, g2.radius]
         num_circles := 2
         z_depth := maxQ [g1.center.z, g2.center.z] - minQ [g1.center.z, g2.center.z]
         vertical_alignment := 10 ^ 10 / (10 ^ 10 + 1)
         score := calculate_hole_score [g1, g2] ((sortZDesc [g1, g2]).headD default)
           (medianQ [g1.radius, g2.radius]) (10 ^ 10 / (10 ^ 10 + 1))
         sources := sourcesOf [g1, g2] } : Hole).score)) = true
    from by
      apply decide_eq_true
      simp only [MIN_SCORE_THRESHOLD]
      linarith [hscore]]
  simp [assignIds, assignFrom, List.take, MAX_CANDIDATES]

theorem score_pair_eval (g : List CandidateCircle) (r : CandidateCircle)
    (hg : g.length = 2)
    (hsrc : sourcesOf g = {SourceKind.analytic_edge, SourceKind.cylindrical_face}) :
    calculate_hole_score g r 6 (10 ^ 10 / (10 ^ 10 + 1)) =
      293/4 + 2549999999955/170000000017 := by
  simp only [calculate_hole_score, hg, hsrc]
  have hm1 : SourceKind.cylindrical_face ∈
      ({SourceKind.analytic_edge, SourceKind.cylindrical_face} : Finset SourceKind) := by decide
  have hm2 : SourceKind.analytic_edge ∈
      ({SourceKind.analytic_edge, SourceKind.cylindrical_face} : Finset SourceKind) := by decide
  have hm3 : SourceKind.fitted_edge ∉
      ({SourceKind.analytic_edge, SourceKind.cylindrical_face} : Finset SourceKind) := by decide
  rw [if_pos hm1, if_pos hm2, if_neg hm3]
  rw [if_pos (by norm_num [MIN_VERTICAL_ALIGNMENT] :
    MIN_VERTICAL_ALIGNMENT ≤ (10:ℚ) ^ 10 / (10 ^ 10 + 1))]
  rw [show |(6:ℚ) - 11/2| = 1/2 by rw [abs_of_pos] <;> norm_num]
  norm_num [MIN_VERTICAL_ALIGNMENT, min_def, max_def]

theorem close_of_centers (a b : CandidateCircle)
    (hd : (a.center.x - b.center.x) ^ 2 + (a.center.y - b.center.y) ^ 2 +
      (a.center.z - b.center.z) ^ 2 ≤ CIRCLE_GROUPING_DISTANCE ^ 2) :
    closeB (featureOf a) (featureOf b) = true := by
  unfold closeB
  apply decide_eq_true
  unfold sqDist featureOf
  have hz : zScale = 3 := by norm_num [zScale, Z_TOLERANCE, CIRCLE_GROUPING_DISTANCE]
  rw [hz]
  unfold CIRCLE_GROUPING_DISTANCE at hd ⊢
  nlinarith [sq_nonneg (a.center.z - b.center.z)]

/-- Claim C5: for every input consisting of exactly one AnalyticEdge
candidate and one CylindricalFace candidate (in either order) whose centers
are within `CIRCLE_GROUPING_DISTANCE` of each other (stated on squared
Euclidean distance), both with radius 6.0 and axis (0,0,1) — the spec's
"approximately" is formalized at the nominal values — `combine_and_group`
returns exactly one hole with `num_circles = 2`,
`sources = {AnalyticEdge, CylindricalFace}`, and score
`293/4 + 2549999999955/170000000017`, which is the 24.25 radius term plus
the alignment term plus the 24-point two-candidate support term plus the
15-point cylindrical-face bonus plus the 10-point analytic-edge bonus. -/
theorem two_agreeing_sources (sqrtFn : ℚ → ℚ) (pc qc : Vec3) (l : List CandidateCircle)
    (hs : sqrtFn 1 = 1)
    (hd : (pc.x - qc.x) ^ 2 + (pc.y - qc.y) ^ 2 + (pc.z - qc.z) ^ 2 ≤
      CIRCLE_GROUPING_DISTANCE ^ 2)
    (hl : l = [⟨SourceKind.analytic_edge, pc, 6, ⟨0, 0, 1⟩⟩,
               ⟨SourceKind.cylindrical_face, qc, 6, ⟨0, 0, 1⟩⟩] ∨
          l = [⟨SourceKind.cylindrical_face, qc, 6, ⟨0, 0, 1⟩⟩,
               ⟨SourceKind.analytic_edge, pc, 6, ⟨0, 0, 1⟩⟩]) :
    ∃ h : Hole, combine_and_group sqrtFn l = [h] ∧ h.num_circles = 2 ∧
      h.sources = {SourceKind.analytic_edge, SourceKind.cylindrical_face} ∧
      h.score = 293/4 + 2549999999955/170000000017 := by
  have hd' : (qc.x - pc.x) ^ 2 + (qc.y - pc.y) ^ 2 + (qc.z - pc.z) ^ 2 ≤
      CIRCLE_GROUPING_DISTANCE ^ 2 := by
    have e1 : (qc.x - pc.x) ^ 2 = (pc.x - qc.x) ^ 2 := by ring
    have e2 : (qc.y - pc.y) ^ 2 = (pc.y - qc.y) ^ 2 := by ring
    have e3 : (qc.z - pc.z) ^ 2 = (pc.z - qc.z) ^ 2 := by ring
    rw [e1, e2, e3]
    exact hd
  rcases hl with rfl | rfl
  · rw [combine_and_group_pair sqrtFn hs ⟨SourceKind.analytic_edge, pc, 6, ⟨0, 0, 1⟩⟩
      ⟨SourceKind.cylindrical_face, qc, 6, ⟨0, 0, 1⟩⟩ (by norm_num [RADIUS_MIN])
      (by norm_num [RADIUS_MAX]) (by norm_num [RADIUS_MIN]) (by norm_num [RADIUS_MAX])
      rfl rfl rfl rfl
      (close_of_centers ⟨SourceKind.cylindrical_face, qc, 6, ⟨0, 0, 1⟩⟩
        ⟨SourceKind.analytic_edge, pc, 6, ⟨0, 0, 1⟩⟩ hd')]
    refine ⟨_, rfl, rfl, ?_, ?_⟩
    · simp [sourcesOf]
    · dsimp only
      rw [medianQ_pair, show ((6:ℚ) + 6) / 2 = 6 by norm_num]
      exact score_pair_eval _ _ rfl (by simp [sourcesOf])
  · rw [combine_and_group_pair sqrtFn hs ⟨SourceKind.cylindrical_face, qc, 6, ⟨0, 0, 1⟩⟩
      ⟨SourceKind.analytic_edge, pc, 6, ⟨0, 0, 1⟩⟩ (by norm_num [RADIUS_MIN])
      (by norm_num [RADIUS_MAX]) (by norm_num [RADIUS_MIN]) (by norm_num [RADIUS_MAX])
      rfl rfl rfl rfl
      (close_of_centers ⟨SourceKind.analytic_edge, pc, 6, ⟨0, 0, 1⟩⟩
        ⟨SourceKind.cylindrical_face, qc, 6, ⟨0, 0, 1⟩⟩ hd)]
    refine ⟨_, rfl, rfl, ?_, ?_⟩
    · simp [sourcesOf]
      exact Finset.pair_comm _ _
    · dsimp only
      rw [medianQ_pair, show ((6:ℚ) + 6) / 2 = 6 by norm_num]
      refine score_pair_eval _ _ rfl ?_
      simp [sourcesOf]
      exact Finset.pair_comm _ _

/-- Claim C5 witness: a concrete agreeing pair (centers (0,0,0) and (1,0,0),
within grouping distance) merges into one hole with both source bonuses. -/
theorem two_agreeing_sources_witness :
    ∃ h : Hole,
      combine_and_group (fun x => x)
          [⟨SourceKind.analytic_edge, ⟨0, 0, 0⟩, 6, ⟨0, 0, 1⟩⟩,
           ⟨SourceKind.cylindrical_face, ⟨1, 0, 0⟩, 6, ⟨0, 0, 1⟩⟩] = [h] ∧
        h.num_circles = 2 ∧
        h.sources = {SourceKind.analytic_edge, SourceKind.cylindrical_face} ∧
        h.score = 293/4 + 2549999999955/170000000017 :=
  two_agreeing_sources (fun x => x) ⟨0, 0, 0⟩ ⟨1, 0, 0⟩ _ rfl
    (by norm_num [CIRCLE_GROUPING_DISTANCE]) (Or.inl rfl)

/-- Claim C2 witness: a concrete two-candidate run retains one hole, and the
invariants hold on it. -/
theorem combine_and_group_invariants_witness :
    MIN_VERTICAL_ALIGNMENT ≤
        ((combine_and_group (fun x => x)
            [⟨SourceKind.analytic_edge, ⟨0, 0, 0⟩, 6, ⟨0, 0, 1⟩⟩,
             ⟨SourceKind.cylindrical_face, ⟨1, 0, 0⟩, 6, ⟨0, 0, 1⟩⟩]).getD 0
          default).vertical_alignment ∧
      MIN_SCORE_THRESHOLD ≤
        ((combine_and_group (fun x => x)
            [⟨SourceKind.analytic_edge, ⟨0, 0, 0⟩, 6, ⟨0, 0, 1⟩⟩,
             ⟨SourceKind.cylindrical_face, ⟨1, 0, 0⟩, 6, ⟨0, 0, 1⟩⟩]).getD 0 default).score :=
  (combine_and_group_invariants (fun x => x)
      [⟨SourceKind.analytic_edge, ⟨0, 0, 0⟩, 6, ⟨0, 0, 1⟩⟩,
       ⟨SourceKind.cylindrical_face, ⟨1, 0, 0⟩, 6, ⟨0, 0, 1⟩⟩]).1 _
    (by
      rw [combine_and_group_pair (fun x => x) rfl _ _ (by norm_num [RADIUS_MIN])
        (by norm_num [RADIUS_MAX]) (by norm_num [RADIUS_MIN]) (by norm_num [RADIUS_MAX])
        (by decide) (by decide) rfl rfl
        (close_of_centers ⟨SourceKind.cylindrical_face, ⟨1, 0, 0⟩, 6, ⟨0, 0, 1⟩⟩
          ⟨SourceKind.analytic_edge, ⟨0, 0, 0⟩, 6, ⟨0, 0, 1⟩⟩
          (by norm_num [CIRCLE_GROUPING_DISTANCE]))]
      simp)
